import Mathlib

/-!
# ClimbComp standings & leaderboard engine — verification

Shallow embedding of the report computation of the ClimbComp server:

* the tables of `server/sql/001_init.sql` become Lean structures and a `DB`
  record of row lists;
* the SQL function `competition_division_podiums` of `001_init.sql`
  (CTEs `division_problems`, `per_user`, `ranked`, the final
  `where rnk <= _max_rank` filter and `order by` clause) becomes a chain of
  list computations;
* the route `GET /api/reports/competition/:id/summary` of
  `server/src/routes/reports.ts` (existence check, `summarySql`, the podium
  call and the final assembly) becomes `getCompetitionSummary`.

SQL specifics preserved: `NULL = x` is never true, so a problem whose
`division_id` is null matches no division; `count(*) filter (where b)` counts
rows with `b` true; `coalesce(sum(e), 0)` sums the non-null values of `e`
(null contributes nothing, an empty group gives 0); `dense_rank() over
(partition by d order by k)` gives a row one plus the number of distinct
key values strictly smaller than its own within its partition — the peers
of a row are the rows equal in the WHOLE `order by` key, display name
included; `order by` sorts by the lexicographic key; text compares
lexicographically (modelled on the character list `String.data`).
-/

namespace ClimbComp

/-- Row of the `users` table (001_init.sql). -/
structure User where
  id : Nat
  display_name : String
deriving DecidableEq

/-- Row of the `competitions` table (the fields the report reads). -/
structure Competition where
  id : Nat
  title : String
deriving DecidableEq

/-- Row of the `divisions` table. -/
structure Division where
  id : Nat
  competition_id : Nat
  name : String
  sort_order : Option Int
deriving DecidableEq

/-- Row of the `competition_participants` table. -/
structure Participant where
  competition_id : Nat
  user_id : Nat
  division_id : Option Nat
deriving DecidableEq

/-- Row of the `problems` table (the fields the report reads);
`division_id` is nullable. -/
structure Problem where
  id : Nat
  competition_id : Nat
  division_id : Option Nat
deriving DecidableEq

/-- Row of the `ascents` table. -/
structure Ascent where
  problem_id : Nat
  user_id : Nat
  topped : Bool
  top_attempts : Option Nat
  zone : Bool
  zone_attempts : Option Nat
deriving DecidableEq

/-- The database snapshot a report computation reads. -/
structure DB where
  users : List User
  competitions : List Competition
  divisions : List Division
  competition_participants : List Participant
  problems : List Problem
  ascents : List Ascent

/-! ## summarySql (reports.ts lines 85–146) -/

/-- First branch of the `UNION` in the `participant_count` subquery:
user ids of rows of `competition_participants` with this competition and
division. -/
def joinedParticipantUserIds (db : DB) (cid did : Nat) : List Nat :=
  (db.competition_participants.filter fun cp =>
    decide (cp.competition_id = cid ∧ cp.division_id = some did)).map (·.user_id)

/-- Second branch of the `UNION`: user ids of ascents joined
(`a.problem_id = p.id`) to problems of this competition and division. -/
def ascentUserIds (db : DB) (cid did : Nat) : List Nat :=
  ((db.problems.filter fun p =>
      decide (p.competition_id = cid ∧ p.division_id = some did)).flatMap fun p =>
    db.ascents.filter fun a => decide (a.problem_id = p.id)).map (·.user_id)

/-- `COUNT(DISTINCT du.user_id)` over the `UNION` of the two branches. -/
def participant_count (db : DB) (cid did : Nat) : Nat :=
  (joinedParticipantUserIds db cid did ++ ascentUserIds db cid did).dedup.length

/-- `COUNT(*)` of problems of this competition assigned to this division. -/
def problem_count (db : DB) (cid did : Nat) : Nat :=
  (db.problems.filter fun p =>
    decide (p.competition_id = cid ∧ p.division_id = some did)).length

/-- Total tops: the `LEFT JOIN` with `WHERE a.topped` keeps exactly the
joined (problem, ascent) pairs with `topped` true, so it counts ascent rows
with `topped` on this division's problems. -/
def division_total_tops (db : DB) (cid did : Nat) : Nat :=
  ((db.problems.filter fun p =>
      decide (p.competition_id = cid ∧ p.division_id = some did)).flatMap fun p =>
    db.ascents.filter fun a => decide (a.problem_id = p.id ∧ a.topped = true)).length

/-- Total zones, same shape with `a.zone`. -/
def division_total_zones (db : DB) (cid did : Nat) : Nat :=
  ((db.problems.filter fun p =>
      decide (p.competition_id = cid ∧ p.division_id = some did)).flatMap fun p =>
    db.ascents.filter fun a => decide (a.problem_id = p.id ∧ a.zone = true)).length

/-- Sort key of `ORDER BY d.sort_order NULLS LAST, d.name`: a null sort
key sorts after every non-null one (`false < true`), then the value, then
the name. -/
def divisionKey (d : Division) : Lex ((Lex (Bool × Int)) × List Char) :=
  toLex (toLex (d.sort_order.isNone, d.sort_order.getD 0), d.name.data)

/-- One row of `summarySql`. -/
structure SummaryRow where
  division_id : Nat
  division_name : String
  participant_count : Nat
  problem_count : Nat
  total_tops : Nat
  total_zones : Nat
deriving DecidableEq

/-- Whether a division row passes the optional `AND d.id = $2` filter. -/
def passesFilter (divFilter : Option Nat) (d : Division) : Bool :=
  match divFilter with
  | none => true
  | some f => decide (d.id = f)

/-- `summarySql`: divisions of the competition (optionally one), ordered by
(`sort_order` nulls last, name), each with its four aggregates. -/
def summaries (db : DB) (cid : Nat) (divFilter : Option Nat) : List SummaryRow :=
  (List.insertionSort (fun d1 d2 => divisionKey d1 ≤ divisionKey d2)
    (db.divisions.filter fun d =>
      decide (d.competition_id = cid) && passesFilter divFilter d)).map fun d =>
    { division_id := d.id
      division_name := d.name
      participant_count := participant_count db cid d.id
      problem_count := problem_count db cid d.id
      total_tops := division_total_tops db cid d.id
      total_zones := division_total_zones db cid d.id }

/-! ## competition_division_podiums (001_init.sql lines 114–191) -/

/-- Row of the `division_problems` CTE: problems of the competition inner
joined to their division (null `division_id` joins nothing). -/
structure DPRow where
  problem_id : Nat
  division_id : Nat
  division_name : String
deriving DecidableEq

/-- CTE `division_problems`. -/
def division_problems (db : DB) (cid : Nat) : List DPRow :=
  db.problems.flatMap fun p =>
    if p.competition_id = cid then
      (db.divisions.filter fun d => decide (p.division_id = some d.id)).map fun d =>
        { problem_id := p.id, division_id := d.id, division_name := d.name }
    else []

/-- The joined rows the `per_user` CTE groups:
`division_problems dp join ascents a on a.problem_id = dp.problem_id`. -/
def puRows (db : DB) (cid : Nat) : List (DPRow × Ascent) :=
  (division_problems db cid).flatMap fun dp =>
    (db.ascents.filter fun a => decide (a.problem_id = dp.problem_id)).map fun a => (dp, a)

/-- Grouping key of `per_user`. -/
def puKey (r : DPRow × Ascent) : Nat × String × Nat :=
  (r.1.division_id, r.1.division_name, r.2.user_id)

/-- One group's aggregates in `per_user`. -/
structure Tally where
  division_id : Nat
  division_name : String
  user_id : Nat
  total_tops : Nat
  total_zones : Nat
  total_top_attempts : Nat
  total_zone_attempts : Nat
deriving DecidableEq

/-- The ascent rows of one group of `per_user`. -/
def groupOf (rows : List (DPRow × Ascent)) (k : Nat × String × Nat) :
    List Ascent :=
  (rows.filter fun r => decide (puKey r = k)).map (·.2)

/-- One group's aggregates: `count(*) filter (where topped)`,
`count(*) filter (where zone)`, `coalesce(sum(top_attempts), 0)`,
`coalesce(sum(zone_attempts), 0)` — `sum` skips nulls, `coalesce` turns the
all-null (or empty) sum into 0, together: sum with null as 0. -/
def tallyOf (rows : List (DPRow × Ascent)) (k : Nat × String × Nat) : Tally :=
  { division_id := k.1
    division_name := k.2.1
    user_id := k.2.2
    total_tops := ((groupOf rows k).filter (·.topped)).length
    total_zones := ((groupOf rows k).filter (·.zone)).length
    total_top_attempts := ((groupOf rows k).filterMap (·.top_attempts)).sum
    total_zone_attempts := ((groupOf rows k).filterMap (·.zone_attempts)).sum }

/-- CTE `per_user`: group the joined rows by (division id, division name,
user id) and aggregate each group. -/
def per_user (db : DB) (cid : Nat) : List Tally :=
  (((puRows db cid).map puKey).dedup).map (tallyOf (puRows db cid))

/-- Row of the `ranked` CTE before the rank is attached: `per_user` joined
to `users` on `u.id = p.user_id`. -/
structure RankedRow where
  division_id : Nat
  division_name : String
  user_id : Nat
  user_display_name : String
  total_tops : Nat
  total_zones : Nat
  total_top_attempts : Nat
  total_zone_attempts : Nat
deriving DecidableEq

/-- `per_user join users on u.id = p.user_id`. -/
def preRanked (db : DB) (cid : Nat) : List RankedRow :=
  (per_user db cid).flatMap fun t =>
    (db.users.filter fun u => decide (u.id = t.user_id)).map fun u =>
      { division_id := t.division_id
        division_name := t.division_name
        user_id := t.user_id
        user_display_name := u.display_name
        total_tops := t.total_tops
        total_zones := t.total_zones
        total_top_attempts := t.total_top_attempts
        total_zone_attempts := t.total_zone_attempts }

/-- The window `ORDER BY` key of `dense_rank()`: tops descending, zones
descending, top attempts ascending, zone attempts ascending, display name
ascending — descending numeric keys enter negated. -/
def rankKey (r : RankedRow) :
    Lex (Int × Lex (Int × Lex (Nat × Lex (Nat × List Char)))) :=
  toLex (-(r.total_tops : Int),
    toLex (-(r.total_zones : Int),
      toLex (r.total_top_attempts,
        toLex (r.total_zone_attempts, r.user_display_name.data))))

/-- `dense_rank() over (partition by p.division_id order by ...)`: one plus
the number of distinct window keys strictly smaller than this row's key
among the rows of the same division. -/
def denseRank (rows : List RankedRow) (r : RankedRow) : Nat :=
  (((rows.filter fun s => decide (s.division_id = r.division_id)).map rankKey).dedup.filter
    fun k => decide (k < rankKey r)).length + 1

/-- A row the SQL function returns (rank attached). -/
structure PodiumRow where
  division_id : Nat
  division_name : String
  user_id : Nat
  user_display_name : String
  rank : Nat
  total_tops : Nat
  total_zones : Nat
  total_top_attempts : Nat
  total_zone_attempts : Nat
deriving DecidableEq

/-- A pre-rank row with its `dense_rank()` attached. -/
def attachRank (rows : List RankedRow) (r : RankedRow) : PodiumRow :=
  { division_id := r.division_id
    division_name := r.division_name
    user_id := r.user_id
    user_display_name := r.user_display_name
    rank := denseRank rows r
    total_tops := r.total_tops
    total_zones := r.total_zones
    total_top_attempts := r.total_top_attempts
    total_zone_attempts := r.total_zone_attempts }

/-- The `ranked` CTE with its `dense_rank()` column. -/
def ranked (db : DB) (cid : Nat) : List PodiumRow :=
  (preRanked db cid).map (attachRank (preRanked db cid))

/-- Forget the rank column again (for relating a ranked row to the
pre-rank row it was built from). -/
def strip (p : PodiumRow) : RankedRow :=
  { division_id := p.division_id
    division_name := p.division_name
    user_id := p.user_id
    user_display_name := p.user_display_name
    total_tops := p.total_tops
    total_zones := p.total_zones
    total_top_attempts := p.total_top_attempts
    total_zone_attempts := p.total_zone_attempts }

/-- Key of the final `order by division_name, rank, user_display_name`. -/
def podKey (p : PodiumRow) : Lex (List Char × Lex (Nat × List Char)) :=
  toLex (p.division_name.data, toLex (p.rank, p.user_display_name.data))

/-- The SQL function `competition_division_podiums`: keep the ranked rows
with `rnk <= _max_rank`, ordered by (division name, rank, display name). -/
def competition_division_podiums (db : DB) (cid maxRank : Nat) : List PodiumRow :=
  List.insertionSort (fun a b => podKey a ≤ podKey b)
    ((ranked db cid).filter fun p => decide (p.rank ≤ maxRank))

/-! ## The route (reports.ts lines 58–187) -/

/-- One podium entry of the response body. -/
structure PodiumEntry where
  user_id : Nat
  user_display_name : String
  rank : Nat
  total_tops : Nat
  total_zones : Nat
  total_top_attempts : Nat
  total_zone_attempts : Nat
deriving DecidableEq

/-- One division of the response body. -/
structure DivisionReport where
  division_id : Nat
  division_name : String
  participant_count : Nat
  problem_count : Nat
  total_tops : Nat
  total_zones : Nat
  podium : List PodiumEntry
deriving DecidableEq

/-- The response body. -/
structure CompetitionReport where
  competition_id : Nat
  competition_title : String
  divisions : List DivisionReport
deriving DecidableEq

/-- The one failure the route reports itself (HTTP 404). -/
inductive ReportError where
  | notFound
deriving DecidableEq

/-- Projection of a podium row into the response shape (step 4 of the
route). -/
def toEntry (p : PodiumRow) : PodiumEntry :=
  { user_id := p.user_id
    user_display_name := p.user_display_name
    rank := p.rank
    total_tops := p.total_tops
    total_zones := p.total_zones
    total_top_attempts := p.total_top_attempts
    total_zone_attempts := p.total_zone_attempts }

/-- The podium rows the route works with: the function's result at
`_max_rank = 3`, with `WHERE division_id = $2` appended when a division
filter is supplied. -/
def selectedPodiumRows (db : DB) (cid : Nat) (divFilter : Option Nat) :
    List PodiumRow :=
  match divFilter with
  | some f => (competition_division_podiums db cid 3).filter fun p =>
      decide (p.division_id = f)
  | none => competition_division_podiums db cid 3

/-- Step 4 of the route: a summary row with its podium rows attached. -/
def toDivisionReport (podiumRows : List PodiumRow) (s : SummaryRow) :
    DivisionReport :=
  { division_id := s.division_id
    division_name := s.division_name
    participant_count := s.participant_count
    problem_count := s.problem_count
    total_tops := s.total_tops
    total_zones := s.total_zones
    podium := (podiumRows.filter fun p =>
      decide (p.division_id = s.division_id)).map toEntry }

/-- The successful response body (competition row already found). -/
def mkReport (db : DB) (cid : Nat) (divFilter : Option Nat)
    (comp : Competition) : CompetitionReport :=
  { competition_id := comp.id
    competition_title := comp.title
    divisions := (summaries db cid divFilter).map
      (toDivisionReport (selectedPodiumRows db cid divFilter)) }

/-- `GET /api/reports/competition/:id/summary`: check the competition
exists (`comps[0]`, else 404), run `summarySql`, call
`competition_division_podiums($1, 3)` (with `WHERE division_id = $2` when a
filter is given), and pair each summary row with its podium rows. -/
def getCompetitionSummary (db : DB) (cid : Nat) (divFilter : Option Nat) :
    Except ReportError CompetitionReport :=
  match db.competitions.find? fun c => decide (c.id = cid) with
  | none => .error .notFound
  | some comp => .ok (mkReport db cid divFilter comp)

/-! ## Concrete database snapshots used as witnesses -/

/-- Competition 10 with one division; Alice and Bob log identical ascents
on its two problems, so their 4-tuples coincide while their names differ. -/
def exDB1 : DB :=
  { users := [⟨1, "Alice"⟩, ⟨2, "Bob"⟩]
    competitions := [⟨10, "Comp"⟩]
    divisions := [⟨20, 10, "Open", none⟩]
    competition_participants := []
    problems := [⟨30, 10, some 20⟩, ⟨31, 10, some 20⟩]
    ascents :=
      [⟨30, 1, true, some 2, true, some 1⟩, ⟨31, 1, true, some 1, true, some 1⟩,
       ⟨30, 2, true, some 2, true, some 1⟩, ⟨31, 2, true, some 1, true, some 1⟩] }

/-- Two users both displayed as "Sam" with identical ascents (window peers,
both rank 1), plus two weaker users: four rows reach rank ≤ 3. -/
def exDB2 : DB :=
  { users := [⟨1, "Sam"⟩, ⟨2, "Sam"⟩, ⟨3, "Tina"⟩, ⟨4, "Uma"⟩]
    competitions := [⟨10, "Comp"⟩]
    divisions := [⟨20, 10, "Open", none⟩]
    competition_participants := []
    problems := [⟨30, 10, some 20⟩, ⟨31, 10, some 20⟩]
    ascents :=
      [⟨30, 1, true, some 1, true, some 1⟩, ⟨31, 1, true, some 1, true, some 1⟩,
       ⟨30, 2, true, some 1, true, some 1⟩, ⟨31, 2, true, some 1, true, some 1⟩,
       ⟨30, 3, true, some 2, true, some 1⟩,
       ⟨30, 4, false, none, true, some 1⟩] }

/-- Competition 10 with a division that has one registered participant but
no problems and no ascents. -/
def exDB4 : DB :=
  { users := [⟨1, "Pat"⟩]
    competitions := [⟨10, "Comp"⟩]
    divisions := [⟨20, 10, "Masters", none⟩]
    competition_participants := [⟨10, 1, some 20⟩]
    problems := []
    ascents := [] }

/-- Three divisions with sort keys 2, null and 1: the report must order
them 22 ("C", key 1), 20 ("B", key 2), 21 ("A", null last). -/
def exDB6 : DB :=
  { users := []
    competitions := [⟨10, "Comp"⟩]
    divisions := [⟨20, 10, "B", some 2⟩, ⟨21, 10, "A", none⟩, ⟨22, 10, "C", some 1⟩]
    competition_participants := []
    problems := []
    ascents := [] }

/-! ## Generic list lemmas -/

/-- Splitting a `countP` along a second predicate. -/
theorem countP_and_split {α : Type} (l : List α) (p q : α → Bool) :
    l.countP p =
      l.countP (fun a => p a && q a) + l.countP (fun a => p a && !q a) := by
  induction l with
  | nil => simp
  | cons a l ih =>
    by_cases hp : p a = true <;> by_cases hq : q a = true <;>
      simp [List.countP_cons, hp, hq, ih] <;> omega

/-- In a duplicate-free list, filtering by a predicate that singles out one
member returns exactly that member. -/
theorem filter_eq_singleton_of_unique {α : Type} {l : List α} {q : α → Bool}
    {x : α} (hnd : l.Nodup) (hx : x ∈ l) (hqx : q x = true)
    (huniq : ∀ y ∈ l, q y = true → y = x) : l.filter q = [x] := by
  induction l with
  | nil => cases hx
  | cons a l ih =>
    rcases List.mem_cons.mp hx with rfl | hx'
    · have : l.filter q = [] := by
        apply List.filter_eq_nil_iff.mpr
        intro y hy hqy
        have := huniq y (List.mem_cons_of_mem _ hy) hqy
        subst this
        exact (List.nodup_cons.mp hnd).1 hy
      simp [List.filter_cons, hqx, this]
    · have hax : a ≠ x := by
        intro h
        subst h
        exact (List.nodup_cons.mp hnd).1 hx'
      have hqa : ¬ q a = true := fun hqa => hax (huniq a (List.mem_cons_self a l) hqa)
      rw [List.filter_cons_of_neg (by simpa using hqa)]
      exact ih (List.nodup_cons.mp hnd).2 hx' fun y hy hqy =>
        huniq y (List.mem_cons_of_mem _ hy) hqy

/-- In a duplicate-free list containing `x`, exactly one element equals
`x`. -/
theorem countP_eq_one_of_nodup_mem {α : Type} [DecidableEq α] {l : List α}
    {x : α} (hnd : l.Nodup) (hx : x ∈ l) :
    l.countP (fun k => decide (k = x)) = 1 := by
  induction l with
  | nil => cases hx
  | cons a l ih =>
    rcases List.mem_cons.mp hx with rfl | hx'
    · rw [List.countP_cons]
      have hz : l.countP (fun k => decide (k = x)) = 0 := by
        apply List.countP_eq_zero.mpr
        intro b hb
        simp only [decide_eq_true_eq]
        intro h
        subst h
        exact (List.nodup_cons.mp hnd).1 hb
      simp [hz]
    · have hax : ¬ a = x := by
        intro h
        subst h
        exact (List.nodup_cons.mp hnd).1 hx'
      rw [List.countP_cons]
      simp only [decide_eq_true_eq, hax, if_false]
      simpa using ih (List.nodup_cons.mp hnd).2 hx'

/-- A `flatMap` of guarded singletons is a mapped filter. -/
theorem flatMap_guard_singleton {α β : Type} (l : List α) (c : α → Bool)
    (g : α → β) :
    (l.flatMap fun a => if c a then [g a] else []) = (l.filter c).map g := by
  induction l with
  | nil => rfl
  | cons a l ih => by_cases h : c a = true <;> simp [List.filter_cons, h, ih]

/-- A `flatMap` of guarded lists is a `flatMap` over the filtered list. -/
theorem flatMap_guard {α β : Type} (l : List α) (c : α → Bool)
    (f : α → List β) :
    (l.flatMap fun a => if c a then f a else []) = (l.filter c).flatMap f := by
  induction l with
  | nil => rfl
  | cons a l ih => by_cases h : c a = true <;> simp [List.filter_cons, h, ih]

/-- Filtering by a disjunction splits, up to permutation, into the two
disjuncts (the second made disjoint from the first). -/
theorem filter_or_perm {α : Type} (l : List α) (p q : α → Bool) :
    (l.filter fun a => p a || q a).Perm
      (l.filter p ++ l.filter fun a => q a && !p a) := by
  induction l with
  | nil => simp
  | cons a l ih =>
    by_cases hp : p a = true
    · rw [List.filter_cons_of_pos (by simp [hp]),
        List.filter_cons_of_pos hp,
        List.filter_cons_of_neg (by simp [hp])]
      exact ih.cons a
    · by_cases hq : q a = true
      · rw [List.filter_cons_of_pos (by simp [hp, hq]),
          List.filter_cons_of_neg (by simp [hp]),
          List.filter_cons_of_pos (by simp [hp, hq])]
        exact (ih.cons a).trans List.perm_middle.symm
      · rw [List.filter_cons_of_neg (by simp [hp, hq]),
          List.filter_cons_of_neg (by simp [hp]),
          List.filter_cons_of_neg (by simp [hp, hq])]
        exact ih

/-- Collecting, key by key, the rows matching each key of a
duplicate-free key list is a permutation of one filter by
"matches some key". -/
theorem flatMap_filter_key_perm {α β : Type} (ks : List α) (f : α → Nat)
    (l : List β) (g : β → Nat) (q : β → Bool)
    (hnd : (ks.map f).Nodup) :
    (ks.flatMap fun k => l.filter fun b => q b && decide (g b = f k)).Perm
      (l.filter fun b => q b && ks.any fun k => decide (g b = f k)) := by
  induction ks with
  | nil => simp
  | cons k ks ih =>
    have hnd' : (f k :: ks.map f).Nodup := by simpa using hnd
    have hcons := List.nodup_cons.mp hnd'
    have hknotin : f k ∉ ks.map f := hcons.1
    have ihk := ih hcons.2
    rw [List.flatMap_cons]
    have hcong : (l.filter fun b => q b &&
        (k :: ks).any fun k2 => decide (g b = f k2)) =
        l.filter fun b => (q b && decide (g b = f k)) ||
          (q b && ks.any fun k2 => decide (g b = f k2)) := by
      apply List.filter_congr
      intro b _
      cases q b <;> simp [List.any_cons, Bool.and_or_distrib_left]
    have hdisj : (l.filter fun b =>
        (q b && ks.any fun k2 => decide (g b = f k2)) &&
          !(q b && decide (g b = f k))) =
        l.filter fun b => q b && ks.any fun k2 => decide (g b = f k2) := by
      apply List.filter_congr
      intro b _
      by_cases hqb : q b = true
      · by_cases hany : (ks.any fun k2 => decide (g b = f k2)) = true
        · have hbk : ¬ g b = f k := by
            rcases List.any_eq_true.mp hany with ⟨k2, hk2, hk2eq⟩
            have hgb : g b = f k2 := by simpa using hk2eq
            intro h
            exact hknotin (List.mem_map.mpr ⟨k2, hk2, by rw [← hgb, h]⟩)
          simp [hqb, hany, hbk]
        · simp [hqb, hany]
      · simp [hqb]
    rw [hcong]
    refine (List.Perm.append_left _ ihk).trans ?_
    rw [← hdisj]
    exact (filter_or_perm l _ _).symm

/-! ## Membership structure of the podium pipeline -/

theorem mem_division_problems {db : DB} {cid : Nat} {dp : DPRow} :
    dp ∈ division_problems db cid ↔
      ∃ p ∈ db.problems, ∃ d ∈ db.divisions,
        p.competition_id = cid ∧ p.division_id = some d.id ∧
        dp = { problem_id := p.id, division_id := d.id, division_name := d.name } := by
  simp only [division_problems, List.mem_flatMap]
  constructor
  · rintro ⟨p, hp, hmem⟩
    by_cases hc : p.competition_id = cid
    · rw [if_pos hc] at hmem
      rcases List.mem_map.mp hmem with ⟨d, hd, rfl⟩
      rcases List.mem_filter.mp hd with ⟨hd, hdec⟩
      exact ⟨p, hp, d, hd, hc, by simpa using hdec, rfl⟩
    · rw [if_neg hc] at hmem
      cases hmem
  · rintro ⟨p, hp, d, hd, hc, hdiv, rfl⟩
    refine ⟨p, hp, ?_⟩
    rw [if_pos hc]
    exact List.mem_map.mpr ⟨d, List.mem_filter.mpr ⟨hd, by simpa using hdiv⟩, rfl⟩

theorem mem_puRows {db : DB} {cid : Nat} {x : DPRow × Ascent} :
    x ∈ puRows db cid ↔
      x.1 ∈ division_problems db cid ∧ x.2 ∈ db.ascents ∧
        x.2.problem_id = x.1.problem_id := by
  simp only [puRows, List.mem_flatMap, List.mem_map, List.mem_filter]
  constructor
  · rintro ⟨dp, hdp, a, ⟨ha, hpid⟩, rfl⟩
    exact ⟨hdp, ha, by simpa using hpid⟩
  · rintro ⟨hdp, ha, hpid⟩
    exact ⟨x.1, hdp, x.2, ⟨ha, by simpa using hpid⟩, rfl⟩

theorem mem_per_user {db : DB} {cid : Nat} {t : Tally} :
    t ∈ per_user db cid ↔
      ∃ k ∈ ((puRows db cid).map puKey).dedup, t = tallyOf (puRows db cid) k := by
  simp only [per_user, List.mem_map]
  constructor
  · rintro ⟨k, hk, rfl⟩
    exact ⟨k, hk, rfl⟩
  · rintro ⟨k, hk, rfl⟩
    exact ⟨k, hk, rfl⟩

theorem mem_preRanked {db : DB} {cid : Nat} {r : RankedRow} :
    r ∈ preRanked db cid ↔
      ∃ t ∈ per_user db cid, ∃ u ∈ db.users, u.id = t.user_id ∧
        r = { division_id := t.division_id
              division_name := t.division_name
              user_id := t.user_id
              user_display_name := u.display_name
              total_tops := t.total_tops
              total_zones := t.total_zones
              total_top_attempts := t.total_top_attempts
              total_zone_attempts := t.total_zone_attempts } := by
  simp only [preRanked, List.mem_flatMap, List.mem_map, List.mem_filter]
  constructor
  · rintro ⟨t, ht, u, ⟨hu, hid⟩, rfl⟩
    exact ⟨t, ht, u, hu, by simpa using hid, rfl⟩
  · rintro ⟨t, ht, u, hu, hid, rfl⟩
    exact ⟨t, ht, u, ⟨hu, by simpa using hid⟩, rfl⟩

theorem strip_attachRank (rows : List RankedRow) (r : RankedRow) :
    strip (attachRank rows r) = r := rfl

theorem mem_ranked {db : DB} {cid : Nat} {p : PodiumRow} :
    p ∈ ranked db cid ↔
      strip p ∈ preRanked db cid ∧
      p = attachRank (preRanked db cid) (strip p) := by
  simp only [ranked, List.mem_map]
  constructor
  · rintro ⟨r, hr, rfl⟩
    rw [strip_attachRank]
    exact ⟨hr, rfl⟩
  · rintro ⟨hr, hp⟩
    exact ⟨strip p, hr, hp.symm⟩

theorem mem_podiums {db : DB} {cid maxRank : Nat} {p : PodiumRow} :
    p ∈ competition_division_podiums db cid maxRank ↔
      p ∈ ranked db cid ∧ p.rank ≤ maxRank := by
  simp [competition_division_podiums, List.mem_insertionSort, List.mem_filter]

theorem mem_selectedPodiumRows {db : DB} {cid : Nat} {f : Option Nat}
    {p : PodiumRow} (hp : p ∈ selectedPodiumRows db cid f) :
    p ∈ ranked db cid ∧ p.rank ≤ 3 := by
  cases f with
  | none => exact mem_podiums.mp hp
  | some fid => exact mem_podiums.mp (List.mem_filter.mp hp).1

/-- Every row of the `ranked` CTE traces back to a division of the
snapshot, a problem of the competition assigned to it, and an ascent of the
row's user on that problem. -/
theorem ranked_trace {db : DB} {cid : Nat} {p : PodiumRow}
    (hp : p ∈ ranked db cid) :
    ∃ d ∈ db.divisions, d.id = p.division_id ∧ d.name = p.division_name ∧
      ∃ q ∈ db.problems, ∃ a ∈ db.ascents,
        q.competition_id = cid ∧ q.division_id = some d.id ∧
        a.problem_id = q.id ∧ a.user_id = p.user_id := by
  rcases mem_ranked.mp hp with ⟨hpre, hform⟩
  rcases mem_preRanked.mp hpre with ⟨t, ht, u, hu, hid, hr⟩
  rcases mem_per_user.mp ht with ⟨k, hk, rfl⟩
  have hk' : k ∈ (puRows db cid).map puKey := List.mem_dedup.mp hk
  rcases List.mem_map.mp hk' with ⟨row, hrow, hkey⟩
  rcases mem_puRows.mp hrow with ⟨hdp, ha, hpid⟩
  rcases mem_division_problems.mp hdp with ⟨q, hq, d, hd, hqc, hqd, hdpform⟩
  refine ⟨d, hd, ?_, ?_, q, hq, row.2, ha, hqc, hqd, ?_, ?_⟩
  · have h1 : p.division_id = (strip p).division_id := rfl
    have h2 : (strip p).division_id = k.1 := by rw [hr]; rfl
    have h3 : k.1 = row.1.division_id := by rw [← hkey]; rfl
    rw [h1, h2, h3, hdpform]
  · have h1 : p.division_name = (strip p).division_name := rfl
    have h2 : (strip p).division_name = k.2.1 := by rw [hr]; rfl
    have h3 : k.2.1 = row.1.division_name := by rw [← hkey]; rfl
    rw [h1, h2, h3, hdpform]
  · rw [hpid, hdpform]
  · have h1 : p.user_id = (strip p).user_id := rfl
    have h2 : (strip p).user_id = k.2.2 := by rw [hr]; rfl
    have h3 : k.2.2 = row.2.user_id := by rw [← hkey]; rfl
    rw [h1, h2, h3]

/-! ## Claim theorems -/

/-- C2: for every division, `participant_count` equals the cardinality of
the set union of (a) the users registered in this competition with this
division and (b) the users with at least one ascent on a problem of this
competition assigned to this division; the union's membership is exactly
those two sources, so a user in both is counted once and a user who only
logged an ascent is counted. -/
theorem participant_count_is_union_card (db : DB) (cid did : Nat) :
    participant_count db cid did =
      ((joinedParticipantUserIds db cid did).toFinset ∪
        (ascentUserIds db cid did).toFinset).card ∧
    ∀ u : Nat,
      u ∈ (joinedParticipantUserIds db cid did).toFinset ∪
          (ascentUserIds db cid did).toFinset ↔
        ((∃ cp ∈ db.competition_participants,
            cp.competition_id = cid ∧ cp.division_id = some did ∧
            cp.user_id = u) ∨
         (∃ p ∈ db.problems, ∃ a ∈ db.ascents,
            p.competition_id = cid ∧ p.division_id = some did ∧
            a.problem_id = p.id ∧ a.user_id = u)) := by
  constructor
  · rw [← List.toFinset_append, List.card_toFinset]
    rfl
  · intro u
    simp only [Finset.mem_union, List.mem_toFinset, joinedParticipantUserIds,
      ascentUserIds, List.mem_map, List.mem_filter, List.mem_flatMap,
      decide_eq_true_eq]
    constructor
    · rintro (⟨cp, ⟨hcp, h1, h2⟩, rfl⟩ | ⟨a, ⟨p, ⟨hp, hc, hd⟩, ha, hpid⟩, rfl⟩)
      · exact Or.inl ⟨cp, hcp, h1, h2, rfl⟩
      · exact Or.inr ⟨p, hp, a, ha, hc, hd, hpid, rfl⟩
    · rintro (⟨cp, hcp, h1, h2, rfl⟩ | ⟨p, hp, a, ha, hc, hd, hpid, rfl⟩)
      · exact Or.inl ⟨cp, ⟨hcp, h1, h2⟩, rfl⟩
      · exact Or.inr ⟨a, ⟨p, ⟨hp, hc, hd⟩, ha, hpid⟩, rfl⟩

/-- C5: the route answers NotFound exactly when no competition row carries
the requested id, and whenever one exists the result is a report, whatever
the snapshot holds otherwise. -/
theorem notFound_iff_no_competition (db : DB) (cid : Nat) (f : Option Nat) :
    ((getCompetitionSummary db cid f = .error .notFound) ↔
      ¬ ∃ c ∈ db.competitions, c.id = cid) ∧
    ((∃ c ∈ db.competitions, c.id = cid) ↔
      ∃ rep, getCompetitionSummary db cid f = .ok rep) := by
  unfold getCompetitionSummary
  cases hf : db.competitions.find? fun c => decide (c.id = cid) with
  | none =>
    have hno : ¬ ∃ c ∈ db.competitions, c.id = cid := by
      rintro ⟨c, hc, hid⟩
      have := List.find?_eq_none.mp hf c hc
      simp [hid] at this
    refine ⟨iff_of_true rfl hno, iff_of_false hno ?_⟩
    rintro ⟨rep, hrep⟩
    cases hrep
  | some comp =>
    have hmem : comp ∈ db.competitions := List.mem_of_find?_eq_some hf
    have hid : comp.id = cid := by simpa using List.find?_some hf
    have hyes : ∃ c ∈ db.competitions, c.id = cid := ⟨comp, hmem, hid⟩
    refine ⟨iff_of_false (by simp) (not_not_intro hyes),
      iff_of_true hyes ⟨mkReport db cid f comp, rfl⟩⟩

/-- C6: when the competition exists but the supplied division filter
matches no division of it, the route returns a report with the
competition's identity and an empty division list — not an error. -/
theorem bad_division_filter_empty_report (db : DB) (cid fid : Nat)
    (comp : Competition)
    (hc : db.competitions.find? (fun c => decide (c.id = cid)) = some comp)
    (hf : ∀ d ∈ db.divisions, d.competition_id = cid → d.id ≠ fid) :
    getCompetitionSummary db cid (some fid) =
      .ok { competition_id := comp.id
            competition_title := comp.title
            divisions := [] } := by
  unfold getCompetitionSummary
  rw [hc]
  have hflt : (db.divisions.filter fun d =>
      decide (d.competition_id = cid) && passesFilter (some fid) d) = [] := by
    apply List.filter_eq_nil_iff.mpr
    intro d hd
    simp only [passesFilter, Bool.and_eq_true, decide_eq_true_eq, not_and]
    intro h1 h2
    exact hf d hd h1 h2
  have hsum : summaries db cid (some fid) = [] := by
    unfold summaries
    rw [hflt]
    rfl
  simp [mkReport, hsum]

/-- Witness for C6 at a concrete snapshot: division 99 belongs to no
division of competition 10, yet the route answers with a report. -/
theorem bad_division_filter_empty_report_witness :
    getCompetitionSummary exDB1 10 (some 99) =
      .ok { competition_id := 10, competition_title := "Comp",
            divisions := [] } :=
  bad_division_filter_empty_report exDB1 10 99 ⟨10, "Comp"⟩
    (by decide) (by decide)

instance : IsTrans Division fun d1 d2 => divisionKey d1 ≤ divisionKey d2 :=
  ⟨fun _ _ _ => le_trans⟩

instance : IsTotal Division fun d1 d2 => divisionKey d1 ≤ divisionKey d2 :=
  ⟨fun _ _ => le_total _ _⟩

instance : IsTrans PodiumRow fun a b => podKey a ≤ podKey b :=
  ⟨fun _ _ _ => le_trans⟩

instance : IsTotal PodiumRow fun a b => podKey a ≤ podKey b :=
  ⟨fun _ _ => le_total _ _⟩

/-- C3: a ranked row enters the podium iff its assigned rank is at most the
cutoff (every rank ≤ N row included, every rank > N row excluded); every
podium entry of a returned report has rank ≤ 3, the route's fixed podium
size; and a tie straddling the boundary can push the podium past 3 rows,
shown by a snapshot with four rows of rank ≤ 3. -/
theorem podium_is_rank_at_most_cutoff :
    (∀ (db : DB) (cid maxRank : Nat) (r : PodiumRow),
      r ∈ competition_division_podiums db cid maxRank ↔
        r ∈ ranked db cid ∧ r.rank ≤ maxRank) ∧
    (∀ (db : DB) (cid : Nat) (f : Option Nat) (rep : CompetitionReport),
      getCompetitionSummary db cid f = .ok rep →
      ∀ dr ∈ rep.divisions, ∀ e ∈ dr.podium, e.rank ≤ 3) ∧
    3 < (competition_division_podiums exDB2 10 3).length := by
  refine ⟨fun db cid maxRank r => mem_podiums, ?_, by decide⟩
  intro db cid f rep hrep dr hdr e he
  unfold getCompetitionSummary at hrep
  cases hf : db.competitions.find? fun c => decide (c.id = cid) with
  | none => rw [hf] at hrep; cases hrep
  | some comp =>
    rw [hf] at hrep
    injection hrep with hrep
    subst hrep
    simp only [mkReport] at hdr
    rcases List.mem_map.mp hdr with ⟨s, hs, rfl⟩
    simp only [toDivisionReport] at he
    rcases List.mem_map.mp he with ⟨p, hp, rfl⟩
    exact (mem_selectedPodiumRows (List.mem_filter.mp hp).1).2

/-- C7: a division of the competition with zero problems appears in the
report with problem_count = total_tops = total_zones = 0 (no error), and a
division with zero ascents on its problems reports zero tops and zones and
an empty podium. -/
theorem empty_division_reports_zeros (db : DB) (cid : Nat) (d : Division)
    (comp : Competition) (hd : d ∈ db.divisions)
    (hdc : d.competition_id = cid)
    (hc : db.competitions.find? (fun c => decide (c.id = cid)) = some comp) :
    ((∀ p ∈ db.problems,
        ¬(p.competition_id = cid ∧ p.division_id = some d.id)) →
      ∃ rep, getCompetitionSummary db cid none = .ok rep ∧
        (∃ dr ∈ rep.divisions, dr.division_id = d.id) ∧
        ∀ dr ∈ rep.divisions, dr.division_id = d.id →
          dr.problem_count = 0 ∧ dr.total_tops = 0 ∧ dr.total_zones = 0) ∧
    ((∀ a ∈ db.ascents, ∀ p ∈ db.problems, p.competition_id = cid →
        p.division_id = some d.id → a.problem_id ≠ p.id) →
      ∃ rep, getCompetitionSummary db cid none = .ok rep ∧
        (∃ dr ∈ rep.divisions, dr.division_id = d.id) ∧
        ∀ dr ∈ rep.divisions, dr.division_id = d.id →
          dr.total_tops = 0 ∧ dr.total_zones = 0 ∧ dr.podium = []) := by
  have hrep : getCompetitionSummary db cid none =
      .ok (mkReport db cid none comp) := by
    unfold getCompetitionSummary
    rw [hc]
  have hdmem : d ∈ db.divisions.filter fun x =>
      decide (x.competition_id = cid) && passesFilter none x :=
    List.mem_filter.mpr ⟨hd, by simp [passesFilter, hdc]⟩
  have hdivmem : ∃ dr ∈ (mkReport db cid none comp).divisions,
      dr.division_id = d.id := by
    refine ⟨toDivisionReport (selectedPodiumRows db cid none)
      { division_id := d.id
        division_name := d.name
        participant_count := participant_count db cid d.id
        problem_count := problem_count db cid d.id
        total_tops := division_total_tops db cid d.id
        total_zones := division_total_zones db cid d.id }, ?_, rfl⟩
    simp only [mkReport]
    apply List.mem_map.mpr
    refine ⟨_, ?_, rfl⟩
    unfold summaries
    exact List.mem_map.mpr ⟨d, (List.mem_insertionSort _).mpr hdmem, rfl⟩
  have hdr_form : ∀ dr ∈ (mkReport db cid none comp).divisions,
      dr.division_id = d.id →
        dr.problem_count = problem_count db cid d.id ∧
        dr.total_tops = division_total_tops db cid d.id ∧
        dr.total_zones = division_total_zones db cid d.id ∧
        dr.podium = ((selectedPodiumRows db cid none).filter fun p =>
          decide (p.division_id = d.id)).map toEntry := by
    intro dr hdr hid
    simp only [mkReport] at hdr
    rcases List.mem_map.mp hdr with ⟨s, hs, rfl⟩
    unfold summaries at hs
    rcases List.mem_map.mp hs with ⟨d', _, rfl⟩
    have hid' : d'.id = d.id := hid
    simp [toDivisionReport, hid']
  constructor
  · intro hnp
    have hfilp : (db.problems.filter fun p =>
        decide (p.competition_id = cid ∧ p.division_id = some d.id)) = [] := by
      apply List.filter_eq_nil_iff.mpr
      intro p hp
      simpa using hnp p hp
    refine ⟨mkReport db cid none comp, hrep, hdivmem, ?_⟩
    intro dr hdr hid
    rcases hdr_form dr hdr hid with ⟨h1, h2, h3, _⟩
    refine ⟨?_, ?_, ?_⟩
    · rw [h1]; unfold problem_count; rw [hfilp]; rfl
    · rw [h2]; unfold division_total_tops; rw [hfilp]; rfl
    · rw [h3]; unfold division_total_zones; rw [hfilp]; rfl
  · intro hna
    refine ⟨mkReport db cid none comp, hrep, hdivmem, ?_⟩
    intro dr hdr hid
    rcases hdr_form dr hdr hid with ⟨_, h2, h3, h4⟩
    refine ⟨?_, ?_, ?_⟩
    · rw [h2]
      unfold division_total_tops
      rw [List.length_eq_zero, List.flatMap_eq_nil_iff]
      intro p hp
      rcases List.mem_filter.mp hp with ⟨hp', hcond⟩
      rcases decide_eq_true_eq.mp hcond with ⟨hpc, hpd⟩
      apply List.filter_eq_nil_iff.mpr
      intro a ha
      simp only [decide_eq_true_eq, not_and]
      intro hpid _
      exact absurd hpid (hna a ha p hp' hpc hpd)
    · rw [h3]
      unfold division_total_zones
      rw [List.length_eq_zero, List.flatMap_eq_nil_iff]
      intro p hp
      rcases List.mem_filter.mp hp with ⟨hp', hcond⟩
      rcases decide_eq_true_eq.mp hcond with ⟨hpc, hpd⟩
      apply List.filter_eq_nil_iff.mpr
      intro a ha
      simp only [decide_eq_true_eq, not_and]
      intro hpid _
      exact absurd hpid (hna a ha p hp' hpc hpd)
    · rw [h4]
      have : ((selectedPodiumRows db cid none).filter fun p =>
          decide (p.division_id = d.id)) = [] := by
        apply List.filter_eq_nil_iff.mpr
        intro p hp
        simp only [decide_eq_true_eq]
        intro hpd
        rcases ranked_trace (mem_selectedPodiumRows hp).1 with
          ⟨d', _, hd'id, _, q, hq, a, ha, hqc, hqd, hapid, _⟩
        rw [hpd] at hd'id
        rw [hd'id] at hqd
        exact hna a ha q hq hqc hqd hapid
      rw [this]
      rfl

/-- Witness for C7: in a snapshot whose competition 10 has a division with
a registered participant but no problems and no ascents, both parts apply:
the division reports all zeros and an empty podium. -/
theorem empty_division_reports_zeros_witness :
    ((∀ p ∈ exDB4.problems,
        ¬(p.competition_id = 10 ∧ p.division_id = some 20)) →
      ∃ rep, getCompetitionSummary exDB4 10 none = .ok rep ∧
        (∃ dr ∈ rep.divisions, dr.division_id = 20) ∧
        ∀ dr ∈ rep.divisions, dr.division_id = 20 →
          dr.problem_count = 0 ∧ dr.total_tops = 0 ∧ dr.total_zones = 0) ∧
    ((∀ a ∈ exDB4.ascents, ∀ p ∈ exDB4.problems, p.competition_id = 10 →
        p.division_id = some 20 → a.problem_id ≠ p.id) →
      ∃ rep, getCompetitionSummary exDB4 10 none = .ok rep ∧
        (∃ dr ∈ rep.divisions, dr.division_id = 20) ∧
        ∀ dr ∈ rep.divisions, dr.division_id = 20 →
          dr.total_tops = 0 ∧ dr.total_zones = 0 ∧ dr.podium = []) :=
  empty_division_reports_zeros exDB4 10 ⟨20, 10, "Masters", none⟩ ⟨10, "Comp"⟩
    (by decide) (by decide) (by decide)

/-- With no division filter the `summarySql` WHERE clause is only the
competition check. -/
theorem summaries_none_filter (db : DB) (cid : Nat) :
    (db.divisions.filter fun d =>
      decide (d.competition_id = cid) && passesFilter none d) =
    db.divisions.filter fun d => decide (d.competition_id = cid) := by
  apply List.filter_congr
  intro x _
  simp [passesFilter]

/-- C9: with no division filter, the report's division list is exactly the
competition's division rows (a permutation of them), emitted in an order
sorted by the division sort key (nulls last) then name ascending; the whole
order is a function of the snapshot, hence the same on recomputation. -/
theorem unfiltered_divisions_exact_and_sorted (db : DB) (cid : Nat)
    (comp : Competition)
    (hc : db.competitions.find? (fun c => decide (c.id = cid)) = some comp)
    (rep : CompetitionReport)
    (hrep : getCompetitionSummary db cid none = .ok rep) :
    ∃ ds : List Division,
      ds.Perm (db.divisions.filter fun d => decide (d.competition_id = cid)) ∧
      List.Pairwise (fun d1 d2 => divisionKey d1 ≤ divisionKey d2) ds ∧
      rep.divisions.map (fun dr => (dr.division_id, dr.division_name)) =
        ds.map fun d => (d.id, d.name) := by
  have hrep' : rep = mkReport db cid none comp := by
    unfold getCompetitionSummary at hrep
    rw [hc] at hrep
    injection hrep with h
    exact h.symm
  subst hrep'
  refine ⟨List.insertionSort (fun d1 d2 => divisionKey d1 ≤ divisionKey d2)
    (db.divisions.filter fun d => decide (d.competition_id = cid)),
    List.perm_insertionSort _ _, List.sorted_insertionSort _ _, ?_⟩
  simp only [mkReport, summaries, summaries_none_filter, List.map_map]
  rfl

/-- Witness for C9 at a snapshot with sort keys 2, null, 1: the theorem
applies and delivers the sorted, exact division list. -/
theorem unfiltered_divisions_exact_and_sorted_witness :
    ∃ ds : List Division,
      ds.Perm (exDB6.divisions.filter fun d =>
        decide (d.competition_id = 10)) ∧
      List.Pairwise (fun d1 d2 => divisionKey d1 ≤ divisionKey d2) ds ∧
      (mkReport exDB6 10 none ⟨10, "Comp"⟩).divisions.map
          (fun dr => (dr.division_id, dr.division_name)) =
        ds.map fun d => (d.id, d.name) :=
  unfiltered_divisions_exact_and_sorted exDB6 10 ⟨10, "Comp"⟩ (by decide)
    (mkReport exDB6 10 none ⟨10, "Comp"⟩) rfl

/-- Two ranked rows of the same division carry the same division name when
division ids are unique in the snapshot. -/
theorem ranked_division_name_eq {db : DB} {cid : Nat}
    (hnd : (db.divisions.map (·.id)).Nodup) {p q : PodiumRow}
    (hp : p ∈ ranked db cid) (hq : q ∈ ranked db cid)
    (hid : p.division_id = q.division_id) :
    p.division_name = q.division_name := by
  rcases ranked_trace hp with ⟨d1, hd1, hid1, hname1, _⟩
  rcases ranked_trace hq with ⟨d2, hd2, hid2, hname2, _⟩
  have hd12 : d1 = d2 :=
    List.inj_on_of_nodup_map hnd hd1 hd2 (by rw [hid1, hid2, hid])
  rw [← hname1, ← hname2, hd12]

/-- C10: in every division of a returned report the podium array is sorted
by rank ascending, and entries sharing a rank appear in ascending
display-name order (division ids assumed unique, as the primary key
guarantees). -/
theorem podium_sorted_by_rank_then_name (db : DB) (cid : Nat)
    (f : Option Nat) (rep : CompetitionReport)
    (hnd : (db.divisions.map (·.id)).Nodup)
    (hrep : getCompetitionSummary db cid f = .ok rep) :
    ∀ dr ∈ rep.divisions, List.Pairwise
      (fun a b : PodiumEntry => a.rank < b.rank ∨
        (a.rank = b.rank ∧
          a.user_display_name.data ≤ b.user_display_name.data))
      dr.podium := by
  intro dr hdr
  unfold getCompetitionSummary at hrep
  cases hf : db.competitions.find? fun c => decide (c.id = cid) with
  | none => rw [hf] at hrep; cases hrep
  | some comp =>
    rw [hf] at hrep
    injection hrep with h
    subst h
    simp only [mkReport] at hdr
    rcases List.mem_map.mp hdr with ⟨s, _, rfl⟩
    simp only [toDivisionReport]
    have hsorted : List.Pairwise (fun a b : PodiumRow => podKey a ≤ podKey b)
        (competition_division_podiums db cid 3) := by
      unfold competition_division_podiums
      exact List.sorted_insertionSort _ _
    have hsel : List.Pairwise (fun a b : PodiumRow => podKey a ≤ podKey b)
        (selectedPodiumRows db cid f) := by
      cases f with
      | none => exact hsorted
      | some fid =>
        exact List.Pairwise.sublist (List.filter_sublist _) hsorted
    have hsub : List.Pairwise (fun a b : PodiumRow => podKey a ≤ podKey b)
        ((selectedPodiumRows db cid f).filter fun p =>
          decide (p.division_id = s.division_id)) :=
      List.Pairwise.sublist (List.filter_sublist _) hsel
    have hstep : List.Pairwise (fun a b : PodiumRow => a.rank < b.rank ∨
        (a.rank = b.rank ∧
          a.user_display_name.data ≤ b.user_display_name.data))
        ((selectedPodiumRows db cid f).filter fun p =>
          decide (p.division_id = s.division_id)) := by
      refine List.Pairwise.imp_of_mem ?_ hsub
      intro a b ha hb hle
      have hamem := List.mem_filter.mp ha
      have hbmem := List.mem_filter.mp hb
      have haid : a.division_id = s.division_id := by simpa using hamem.2
      have hbid : b.division_id = s.division_id := by simpa using hbmem.2
      have hname : a.division_name = b.division_name :=
        ranked_division_name_eq hnd (mem_selectedPodiumRows hamem.1).1
          (mem_selectedPodiumRows hbmem.1).1 (by rw [haid, hbid])
      unfold podKey at hle
      rcases (Prod.Lex.le_iff _ _).mp hle with hlt | ⟨_, hinner⟩
      · rw [hname] at hlt
        exact absurd hlt (lt_irrefl _)
      · rcases (Prod.Lex.le_iff _ _).mp hinner with hlt | ⟨heq2, hle2⟩
        · exact Or.inl hlt
        · exact Or.inr ⟨heq2, hle2⟩
    exact List.Pairwise.map toEntry (fun a b h => h) hstep

/-- Witness for C10 at a snapshot whose podium has four entries (two of
them window peers): the returned Open-division podium is sorted by
(rank, name). -/
theorem podium_sorted_by_rank_then_name_witness :
    List.Pairwise
      (fun a b : PodiumEntry => a.rank < b.rank ∨
        (a.rank = b.rank ∧
          a.user_display_name.data ≤ b.user_display_name.data))
      [⟨1, "Sam", 1, 2, 2, 2, 2⟩, ⟨2, "Sam", 1, 2, 2, 2, 2⟩,
       ⟨3, "Tina", 2, 1, 1, 2, 1⟩, ⟨4, "Uma", 3, 0, 1, 0, 1⟩] :=
  podium_sorted_by_rank_then_name exDB2 10 none
    (mkReport exDB2 10 none ⟨10, "Comp"⟩) (by decide) rfl
    { division_id := 20, division_name := "Open", participant_count := 4
      problem_count := 2, total_tops := 5, total_zones := 6
      podium := [⟨1, "Sam", 1, 2, 2, 2, 2⟩, ⟨2, "Sam", 1, 2, 2, 2, 2⟩,
        ⟨3, "Tina", 2, 1, 1, 2, 1⟩, ⟨4, "Uma", 3, 0, 1, 0, 1⟩] }
    (by decide)

/-- A snapshot extended by one more problem row and some more ascent rows
(everything else unchanged). -/
def extendDB (db : DB) (p : Problem) (asc : List Ascent) : DB :=
  { db with problems := db.problems ++ [p], ascents := db.ascents ++ asc }

/-- C8: a problem with a null division reference, together with all its
ascents, contributes nothing anywhere: adding such a problem (with a fresh
id) and its ascents to the snapshot leaves the whole report — every
division's problem_count, total_tops, total_zones, participant_count,
every tally and every podium — unchanged, for any filter. -/
theorem null_division_problem_invisible (db : DB) (cid : Nat)
    (f : Option Nat) (p : Problem) (asc : List Ascent)
    (hnull : p.division_id = none)
    (hfresh : ∀ q ∈ db.problems, q.id ≠ p.id)
    (ha : ∀ a ∈ asc, a.problem_id = p.id) :
    getCompetitionSummary (extendDB db p asc) cid f =
      getCompetitionSummary db cid f := by
  have hprojP : (extendDB db p asc).problems = db.problems ++ [p] := rfl
  have hprojA : (extendDB db p asc).ascents = db.ascents ++ asc := rfl
  have hprojD : (extendDB db p asc).divisions = db.divisions := rfl
  have hprojU : (extendDB db p asc).users = db.users := rfl
  have hprojCP : (extendDB db p asc).competition_participants =
    db.competition_participants := rfl
  have hnoasc : ∀ q ∈ db.problems, ∀ a ∈ asc, ¬ a.problem_id = q.id := by
    intro q hq a haa h
    rw [ha a haa] at h
    exact hfresh q hq h.symm
  have hascfil : ∀ P : Ascent → Bool, (∀ a ∈ asc, P a = false) →
      (db.ascents ++ asc).filter P = db.ascents.filter P := by
    intro P hP
    rw [List.filter_append]
    have hnil : asc.filter P = [] :=
      List.filter_eq_nil_iff.mpr fun a haa => by simp [hP a haa]
    rw [hnil, List.append_nil]
  have hpf : ∀ did, ((db.problems ++ [p]).filter fun q =>
      decide (q.competition_id = cid ∧ q.division_id = some did)) =
      db.problems.filter fun q =>
        decide (q.competition_id = cid ∧ q.division_id = some did) := by
    intro did
    rw [List.filter_append]
    simp [hnull]
  have h2 : ∀ did, ascentUserIds (extendDB db p asc) cid did =
      ascentUserIds db cid did := by
    intro did
    simp only [ascentUserIds, hprojP, hprojA]
    rw [hpf]
    congr 1
    apply List.flatMap_congr
    intro q hq
    exact hascfil _ fun a haa => by
      simp [hnoasc q (List.mem_filter.mp hq).1 a haa]
  have h3 : ∀ did, participant_count (extendDB db p asc) cid did =
      participant_count db cid did := by
    intro did
    simp only [participant_count, joinedParticipantUserIds, hprojCP, h2 did]
  have h4 : ∀ did, problem_count (extendDB db p asc) cid did =
      problem_count db cid did := by
    intro did
    simp only [problem_count, hprojP]
    rw [hpf]
  have h5t : ∀ did, division_total_tops (extendDB db p asc) cid did =
      division_total_tops db cid did := by
    intro did
    simp only [division_total_tops, hprojP, hprojA]
    rw [hpf]
    congr 1
    apply List.flatMap_congr
    intro q hq
    exact hascfil _ fun a haa => by
      simp [hnoasc q (List.mem_filter.mp hq).1 a haa]
  have h5z : ∀ did, division_total_zones (extendDB db p asc) cid did =
      division_total_zones db cid did := by
    intro did
    simp only [division_total_zones, hprojP, hprojA]
    rw [hpf]
    congr 1
    apply List.flatMap_congr
    intro q hq
    exact hascfil _ fun a haa => by
      simp [hnoasc q (List.mem_filter.mp hq).1 a haa]
  have h6 : ∀ g, summaries (extendDB db p asc) cid g = summaries db cid g := by
    intro g
    simp only [summaries, hprojD]
    apply List.map_congr_left
    intro d _
    rw [h3, h4, h5t, h5z]
  have h7 : division_problems (extendDB db p asc) cid =
      division_problems db cid := by
    simp only [division_problems, hprojP, hprojD]
    rw [List.flatMap_append]
    have hp1 : ([p].flatMap fun q =>
        if q.competition_id = cid then
          (db.divisions.filter fun d =>
            decide (q.division_id = some d.id)).map fun d =>
            DPRow.mk q.id d.id d.name
        else []) = [] := by
      simp [hnull]
    rw [hp1, List.append_nil]
  have h8 : puRows (extendDB db p asc) cid = puRows db cid := by
    simp only [puRows, hprojA]
    rw [h7]
    apply List.flatMap_congr
    intro dp hdp
    rcases mem_division_problems.mp hdp with ⟨q, hq, d', _, _, _, rfl⟩
    have heq : (db.ascents ++ asc).filter
        (fun a => decide (a.problem_id = q.id)) =
        db.ascents.filter fun a => decide (a.problem_id = q.id) :=
      hascfil _ fun a haa => by simp [hnoasc q hq a haa]
    exact congrArg _ heq
  have h9 : per_user (extendDB db p asc) cid = per_user db cid := by
    simp only [per_user, h8]
  have h10 : preRanked (extendDB db p asc) cid = preRanked db cid := by
    simp only [preRanked, h9, hprojU]
  have h11 : ranked (extendDB db p asc) cid = ranked db cid := by
    simp only [ranked, h10]
  have h12 : ∀ m, competition_division_podiums (extendDB db p asc) cid m =
      competition_division_podiums db cid m := by
    intro m
    simp only [competition_division_podiums, h11]
  have h13 : selectedPodiumRows (extendDB db p asc) cid f =
      selectedPodiumRows db cid f := by
    cases f with
    | none => simp only [selectedPodiumRows, h12]
    | some fid => simp only [selectedPodiumRows, h12]
  unfold getCompetitionSummary
  have hcomps : (extendDB db p asc).competitions = db.competitions := rfl
  rw [hcomps]
  cases db.competitions.find? fun c => decide (c.id = cid) with
  | none => rfl
  | some comp =>
    simp only [mkReport, h6, h13]

/-- Witness for C8: adding an unassigned problem 40 and an ascent on it to
the two-user snapshot leaves the computed report unchanged. -/
theorem null_division_problem_invisible_witness :
    getCompetitionSummary
      (extendDB exDB1 ⟨40, 10, none⟩ [⟨40, 1, true, some 1, false, none⟩])
      10 none =
    getCompetitionSummary exDB1 10 none :=
  null_division_problem_invisible exDB1 10 none ⟨40, 10, none⟩
    [⟨40, 1, true, some 1, false, none⟩] (by decide) (by decide) (by decide)

/-- The window key of a ranked row with its rank column forgotten. -/
def rankKeyP (p : PodiumRow) :
    Lex (Int × Lex (Int × Lex (Nat × Lex (Nat × List Char)))) :=
  rankKey (strip p)

/-- C1 counterexample: in `exDB1` Alice (user 1) and Bob (user 2) carry
identical (tops, zones, top_attempts, zone_attempts) tuples (2, 2, 3, 2),
yet their ranks are 1 and 2: the display-name stage sits inside the
`dense_rank` window's ORDER BY, so it separates the peers and users with
identical 4-tuples do NOT receive the same rank number. -/
theorem identical_tuples_distinct_ranks_counterexample :
    (ranked exDB1 10).map (fun r => (r.user_id, r.total_tops, r.total_zones,
      r.total_top_attempts, r.total_zone_attempts, r.rank)) =
    [(1, 2, 2, 3, 2, 1), (2, 2, 2, 3, 2, 2)] := by decide

/-- C1 amended: the assigned rank is the dense rank induced by the FULL
5-stage window key (tops desc, zones desc, top attempts asc, zone attempts
asc, display name asc): two ranked rows of one division with equal 5-keys
share the rank number, and a row holding the next distinct 5-key (nothing
of the division strictly between) gets exactly the previous rank + 1. Rows
with identical 4-tuples but different display names hold distinct 5-keys,
hence distinct consecutive ranks. -/
theorem rank_is_dense_over_five_stage_key (db : DB) (cid : Nat)
    (r s : PodiumRow) (hr : r ∈ ranked db cid) (hs : s ∈ ranked db cid)
    (hdiv : s.division_id = r.division_id) :
    (rankKeyP s = rankKeyP r → s.rank = r.rank) ∧
    (rankKeyP r < rankKeyP s →
      (∀ t ∈ ranked db cid, t.division_id = r.division_id →
        ¬(rankKeyP r < rankKeyP t ∧ rankKeyP t < rankKeyP s)) →
      s.rank = r.rank + 1) := by
  rcases mem_ranked.mp hr with ⟨hrpre, hrform⟩
  rcases mem_ranked.mp hs with ⟨hspre, hsform⟩
  have hrrank : r.rank = denseRank (preRanked db cid) (strip r) := by
    conv_lhs => rw [hrform]
    rfl
  have hsrank : s.rank = denseRank (preRanked db cid) (strip s) := by
    conv_lhs => rw [hsform]
    rfl
  have hdiv' : (strip s).division_id = (strip r).division_id := hdiv
  have hsrank' : s.rank =
      ((((preRanked db cid).filter fun y =>
        decide (y.division_id = (strip r).division_id)).map rankKey).dedup.filter
        fun k => decide (k < rankKey (strip s))).length + 1 := by
    rw [hsrank]
    unfold denseRank
    rw [hdiv']
  have hrrank' : r.rank =
      ((((preRanked db cid).filter fun y =>
        decide (y.division_id = (strip r).division_id)).map rankKey).dedup.filter
        fun k => decide (k < rankKey (strip r))).length + 1 := by
    rw [hrrank]
    unfold denseRank
    rfl
  constructor
  · intro hkey
    rw [hsrank', hrrank']
    have : rankKey (strip s) = rankKey (strip r) := hkey
    rw [this]
  · intro hlt hnb
    have hkrP : rankKey (strip r) ∈
        ((preRanked db cid).filter fun y =>
          decide (y.division_id = (strip r).division_id)).map rankKey :=
      List.mem_map.mpr ⟨strip r,
        List.mem_filter.mpr ⟨hrpre, by simp⟩, rfl⟩
    have hnbP : ∀ k ∈ ((preRanked db cid).filter fun y =>
        decide (y.division_id = (strip r).division_id)).map rankKey,
        ¬(rankKey (strip r) < k ∧ k < rankKey (strip s)) := by
      intro k hk
      rcases List.mem_map.mp hk with ⟨y, hy, rfl⟩
      rcases List.mem_filter.mp hy with ⟨hyrows, hydiv⟩
      have hymem : attachRank (preRanked db cid) y ∈ ranked db cid :=
        List.mem_map.mpr ⟨y, hyrows, rfl⟩
      have hydiv' : (attachRank (preRanked db cid) y).division_id =
          r.division_id := by simpa using hydiv
      have := hnb _ hymem hydiv'
      simpa [rankKeyP, strip_attachRank] using this
    set D := (((preRanked db cid).filter fun y =>
      decide (y.division_id = (strip r).division_id)).map rankKey).dedup with hD
    have hkrD : rankKey (strip r) ∈ D := List.mem_dedup.mpr hkrP
    have hcount : D.countP (fun k => decide (k < rankKey (strip s))) =
        D.countP (fun k => decide (k < rankKey (strip r))) + 1 := by
      rw [countP_and_split D (fun k => decide (k < rankKey (strip s)))
        (fun k => decide (k < rankKey (strip r)))]
      have hg1 : D.countP (fun k => decide (k < rankKey (strip s)) &&
          decide (k < rankKey (strip r))) =
          D.countP (fun k => decide (k < rankKey (strip r))) := by
        apply List.countP_congr
        intro k _
        simp only [Bool.and_eq_true, decide_eq_true_eq]
        constructor
        · rintro ⟨_, h2⟩
          exact h2
        · intro h
          exact ⟨lt_trans h hlt, h⟩
      have hg2 : D.countP (fun k => decide (k < rankKey (strip s)) &&
          !decide (k < rankKey (strip r))) = 1 := by
        have hone : D.countP (fun k => decide (k < rankKey (strip s)) &&
            !decide (k < rankKey (strip r))) =
            D.countP (fun k => decide (k = rankKey (strip r))) := by
          apply List.countP_congr
          intro k hkD
          have hkP : k ∈ ((preRanked db cid).filter fun y =>
              decide (y.division_id = (strip r).division_id)).map rankKey :=
            List.mem_dedup.mp (hD ▸ hkD)
          simp only [Bool.and_eq_true, Bool.not_eq_true', decide_eq_true_eq,
            decide_eq_false_iff_not]
          constructor
          · rintro ⟨h1, h2⟩
            rcases lt_or_eq_of_le (not_lt.mp h2) with h3 | h3
            · exact absurd ⟨h3, h1⟩ (hnbP k hkP)
            · exact h3.symm
          · rintro rfl
            exact ⟨hlt, lt_irrefl _⟩
        rw [hone]
        have hnd : D.Nodup := hD ▸ List.nodup_dedup _
        exact countP_eq_one_of_nodup_mem hnd hkrD
      rw [hg1, hg2]
    rw [hsrank', hrrank']
    have hlen : ∀ key : Lex (Int × Lex (Int × Lex (Nat × Lex (Nat × List Char)))),
        (D.filter fun k => decide (k < key)).length =
        D.countP fun k => decide (k < key) := by
      intro key
      rw [List.countP_eq_length_filter]
    rw [hD] at hlen
    rw [hlen, hlen, hcount]

/-- Two booleans agreeing as propositions are equal. -/
theorem bool_eq_of_iff {a b : Bool} (h : a = true ↔ b = true) : a = b := by
  cases a <;> cases b <;> simp_all

/-- The claim's reading of a user's ascent rows in a division: the ascent
rows of the user on problems of the competition assigned to the
division. -/
def ascRows (db : DB) (cid did uid : Nat) : List Ascent :=
  db.ascents.filter fun a => decide (a.user_id = uid ∧
    ∃ p ∈ db.problems, p.competition_id = cid ∧ p.division_id = some did ∧
      a.problem_id = p.id)

/-- With unique division ids, the `division_problems` rows of one division
are exactly its problems, one row each. -/
theorem division_problems_filter_div (db : DB) (cid : Nat) (d : Division)
    (hd : d ∈ db.divisions) (hdn : (db.divisions.map (·.id)).Nodup) :
    ((division_problems db cid).filter fun dp =>
      decide (dp.division_id = d.id ∧ dp.division_name = d.name)) =
    ((db.problems.filter fun p =>
      decide (p.competition_id = cid ∧ p.division_id = some d.id)).map
      fun p => DPRow.mk p.id d.id d.name) := by
  unfold division_problems
  rw [List.filter_flatMap, ← flatMap_guard_singleton]
  apply List.flatMap_congr
  intro p _
  by_cases hc : p.competition_id = cid
  · rw [if_pos hc, List.filter_map]
    by_cases hpd : p.division_id = some d.id
    · rw [if_pos (by simp [hc, hpd])]
      have hfil : ((db.divisions.filter fun dd =>
          decide (p.division_id = some dd.id)).filter
          ((fun dp => decide (dp.division_id = d.id ∧
            dp.division_name = d.name)) ∘
            fun dd => DPRow.mk p.id dd.id dd.name)) = [d] := by
        rw [List.filter_filter]
        apply filter_eq_singleton_of_unique (List.Nodup.of_map _ hdn) hd
        · simp [hpd]
        · intro y hy hqy
          simp only [Function.comp, Bool.and_eq_true, decide_eq_true_eq] at hqy
          exact List.inj_on_of_nodup_map hdn hy hd hqy.1.1
      rw [hfil]
      rfl
    · rw [if_neg (by simp [hpd])]
      have hnil : ((db.divisions.filter fun dd =>
          decide (p.division_id = some dd.id)).filter
          ((fun dp => decide (dp.division_id = d.id ∧
            dp.division_name = d.name)) ∘
            fun dd => DPRow.mk p.id dd.id dd.name)) = [] := by
        rw [List.filter_filter]
        apply List.filter_eq_nil_iff.mpr
        intro y _
        simp only [Function.comp, Bool.and_eq_true, decide_eq_true_eq, not_and]
        rintro ⟨hy1, _⟩ hy2
        rw [hy1] at hy2
        exact hpd hy2
      rw [hnil]
      rfl
  · rw [if_neg hc, if_neg (by simp [hc])]
    rfl

/-- Under unique problem and division ids, the `per_user` group of
(division d, user u) holds, up to permutation, exactly u's ascent rows on
d's problems. -/
theorem groupOf_perm_ascRows (db : DB) (cid : Nat) (d : Division) (u : Nat)
    (hd : d ∈ db.divisions)
    (hpn : (db.problems.map (·.id)).Nodup)
    (hdn : (db.divisions.map (·.id)).Nodup) :
    (groupOf (puRows db cid) (d.id, d.name, u)).Perm
      (ascRows db cid d.id u) := by
  have hstep1 : groupOf (puRows db cid) (d.id, d.name, u) =
      ((division_problems db cid).filter fun dp =>
        decide (dp.division_id = d.id ∧ dp.division_name = d.name)).flatMap
        fun dp => db.ascents.filter fun a =>
          decide (a.user_id = u) && decide (a.problem_id = dp.problem_id) := by
    unfold groupOf puRows
    rw [List.filter_flatMap, List.map_flatMap, ← flatMap_guard]
    apply List.flatMap_congr
    intro dp _
    rw [List.filter_map, List.map_map]
    by_cases hC : dp.division_id = d.id ∧ dp.division_name = d.name
    · rw [if_pos (by simpa using hC)]
      rw [List.filter_filter]
      have hcong : ∀ a ∈ db.ascents,
          (((fun r : DPRow × Ascent =>
            decide (puKey r = (d.id, d.name, u))) ∘ fun a => (dp, a)) a &&
            decide (a.problem_id = dp.problem_id)) =
          (decide (a.user_id = u) && decide (a.problem_id = dp.problem_id)) := by
        intro a _
        rcases hC with ⟨h1, h2⟩
        simp [Function.comp, puKey, Prod.ext_iff, h1, h2]
      rw [List.filter_congr hcong]
      have hid : ((fun r : DPRow × Ascent => r.2) ∘ fun a => (dp, a)) =
          fun a : Ascent => a := rfl
      rw [hid, List.map_id']
    · rw [if_neg (by simpa using hC)]
      have hnil : ((db.ascents.filter fun a =>
          decide (a.problem_id = dp.problem_id)).filter
          ((fun r : DPRow × Ascent =>
            decide (puKey r = (d.id, d.name, u))) ∘ fun a => (dp, a))) = [] := by
        apply List.filter_eq_nil_iff.mpr
        intro a _
        simp only [Function.comp, puKey, Prod.ext_iff, decide_eq_true_eq]
        rintro ⟨ha1, ha2, _⟩
        exact hC ⟨ha1, ha2⟩
      rw [hnil]
      rfl
  rw [hstep1, division_problems_filter_div db cid d hd hdn, List.flatMap_map]
  have hPdnd : (((db.problems.filter fun p =>
      decide (p.competition_id = cid ∧ p.division_id = some d.id)).map
      (·.id)).Nodup) :=
    List.Nodup.sublist (List.Sublist.map _ (List.filter_sublist _)) hpn
  refine (flatMap_filter_key_perm
    (db.problems.filter fun p =>
      decide (p.competition_id = cid ∧ p.division_id = some d.id))
    (fun p => p.id) db.ascents (fun a => a.problem_id)
    (fun a => decide (a.user_id = u)) hPdnd).trans ?_
  have hcong2 : ∀ a ∈ db.ascents,
      (decide (a.user_id = u) &&
        (db.problems.filter fun p =>
          decide (p.competition_id = cid ∧ p.division_id = some d.id)).any
          fun p => decide (a.problem_id = p.id)) =
      decide (a.user_id = u ∧ ∃ p ∈ db.problems, p.competition_id = cid ∧
        p.division_id = some d.id ∧ a.problem_id = p.id) := by
    intro a _
    apply bool_eq_of_iff
    simp only [Bool.and_eq_true, decide_eq_true_eq, List.any_eq_true,
      List.mem_filter]
    constructor
    · rintro ⟨hu, p, ⟨hp, hc, hdd⟩, hpid⟩
      exact ⟨hu, p, hp, hc, hdd, hpid⟩
    · rintro ⟨hu, p, hp, hc, hdd, hpid⟩
      exact ⟨hu, p, ⟨hp, hc, hdd⟩, hpid⟩
  rw [List.filter_congr hcong2]
  rfl

/-- Every ranked row corresponds to a `per_user` tally of the same
division and user. -/
theorem ranked_tally_trace {db : DB} {cid : Nat} {p : PodiumRow}
    (hp : p ∈ ranked db cid) :
    ∃ t ∈ per_user db cid, t.division_id = p.division_id ∧
      t.user_id = p.user_id := by
  rcases mem_ranked.mp hp with ⟨hpre, _⟩
  rcases mem_preRanked.mp hpre with ⟨t, ht, u, _, _, hform⟩
  refine ⟨t, ht, ?_, ?_⟩
  · have h1 : (strip p).division_id = t.division_id := by rw [hform]
    exact h1.symm
  · have h1 : (strip p).user_id = t.user_id := by rw [hform]
    exact h1.symm

/-- C4: for a division d of the snapshot and a user u (problem and
division ids unique, as the primary keys guarantee): if u has at least one
ascent row on d's problems in this competition, the (d, u) tally exists,
total_tops / total_zones count the ascent rows with topped / zone true,
and total_top_attempts / total_zone_attempts sum the attempts with null
contributing 0; if u has no such ascent row, no tally and no podium row
for (d, u) exists. -/
theorem tally_aggregates_user_ascents (db : DB) (cid : Nat) (d : Division)
    (u : Nat) (hd : d ∈ db.divisions)
    (hpn : (db.problems.map (·.id)).Nodup)
    (hdn : (db.divisions.map (·.id)).Nodup) :
    (ascRows db cid d.id u ≠ [] →
      ∃ t ∈ per_user db cid, t.division_id = d.id ∧ t.user_id = u ∧
        t.total_tops = ((ascRows db cid d.id u).filter (·.topped)).length ∧
        t.total_zones = ((ascRows db cid d.id u).filter (·.zone)).length ∧
        t.total_top_attempts =
          ((ascRows db cid d.id u).filterMap (·.top_attempts)).sum ∧
        t.total_zone_attempts =
          ((ascRows db cid d.id u).filterMap (·.zone_attempts)).sum) ∧
    (ascRows db cid d.id u = [] →
      (∀ t ∈ per_user db cid, ¬(t.division_id = d.id ∧ t.user_id = u)) ∧
      (∀ r ∈ competition_division_podiums db cid 3,
        ¬(r.division_id = d.id ∧ r.user_id = u))) := by
  have hperm := groupOf_perm_ascRows db cid d u hd hpn hdn
  constructor
  · intro hne
    rcases List.exists_mem_of_ne_nil _ hne with ⟨a, haA⟩
    rcases List.mem_filter.mp haA with ⟨ha, hcond⟩
    rcases decide_eq_true_eq.mp hcond with ⟨hau, p, hp, hpc, hpd, hapid⟩
    have hdp : DPRow.mk p.id d.id d.name ∈ division_problems db cid :=
      mem_division_problems.mpr ⟨p, hp, d, hd, hpc, hpd, rfl⟩
    have hrow : ((DPRow.mk p.id d.id d.name, a) : DPRow × Ascent) ∈
        puRows db cid :=
      mem_puRows.mpr ⟨hdp, ha, hapid⟩
    have hkey : (d.id, d.name, u) ∈ (puRows db cid).map puKey :=
      List.mem_map.mpr ⟨_, hrow, by simp [puKey, hau]⟩
    refine ⟨tallyOf (puRows db cid) (d.id, d.name, u),
      mem_per_user.mpr ⟨_, List.mem_dedup.mpr hkey, rfl⟩,
      rfl, rfl, ?_, ?_, ?_, ?_⟩
    · exact (hperm.filter _).length_eq
    · exact (hperm.filter _).length_eq
    · exact (hperm.filterMap (·.top_attempts)).sum_eq
    · exact (hperm.filterMap (·.zone_attempts)).sum_eq
  · intro hnil
    have hempty : ∀ t ∈ per_user db cid,
        ¬(t.division_id = d.id ∧ t.user_id = u) := by
      rintro t ht ⟨htd, htu⟩
      rcases mem_per_user.mp ht with ⟨k, hk, rfl⟩
      rcases List.mem_map.mp (List.mem_dedup.mp hk) with ⟨row, hrow, hkeq⟩
      rcases mem_puRows.mp hrow with ⟨hdp, ha, hpid⟩
      rcases mem_division_problems.mp hdp with ⟨q, hq, d', _, hqc, hqd, hform⟩
      have hk1 : k.1 = row.1.division_id := by rw [← hkeq]; rfl
      have hk3 : k.2.2 = row.2.user_id := by rw [← hkeq]; rfl
      have htd' : row.1.division_id = d.id := by rw [← hk1]; exact htd
      have htu' : row.2.user_id = u := by rw [← hk3]; exact htu
      have hd'id : d'.id = d.id := by
        have : row.1.division_id = d'.id := by rw [hform]
        rw [← this, htd']
      have hqdd : q.division_id = some d.id := by rw [hqd, hd'id]
      have hapid : row.2.problem_id = q.id := by
        rw [hpid, hform]
      have hmemA : row.2 ∈ ascRows db cid d.id u :=
        List.mem_filter.mpr ⟨ha,
          decide_eq_true ⟨htu', q, hq, hqc, hqdd, hapid⟩⟩
      rw [hnil] at hmemA
      cases hmemA
    refine ⟨hempty, ?_⟩
    rintro r hrpod ⟨hrd, hru⟩
    rcases ranked_tally_trace (mem_podiums.mp hrpod).1 with ⟨t, ht, htd, htu⟩
    exact hempty t ht ⟨by rw [htd, hrd], by rw [htu, hru]⟩

/-- Witness for C4 at `exDB1`: user 1 (Alice) has two ascent rows in the
Open division, and her tally aggregates them (2 tops, 2 zones, 3 top
attempts, 2 zone attempts). -/
theorem tally_aggregates_user_ascents_witness :
    (ascRows exDB1 10 20 1 ≠ [] →
      ∃ t ∈ per_user exDB1 10, t.division_id = 20 ∧ t.user_id = 1 ∧
        t.total_tops = ((ascRows exDB1 10 20 1).filter (·.topped)).length ∧
        t.total_zones = ((ascRows exDB1 10 20 1).filter (·.zone)).length ∧
        t.total_top_attempts =
          ((ascRows exDB1 10 20 1).filterMap (·.top_attempts)).sum ∧
        t.total_zone_attempts =
          ((ascRows exDB1 10 20 1).filterMap (·.zone_attempts)).sum) ∧
    (ascRows exDB1 10 20 1 = [] →
      (∀ t ∈ per_user exDB1 10, ¬(t.division_id = 20 ∧ t.user_id = 1)) ∧
      (∀ r ∈ competition_division_podiums exDB1 10 3,
        ¬(r.division_id = 20 ∧ r.user_id = 1))) :=
  tally_aggregates_user_ascents exDB1 10 ⟨20, 10, "Open", none⟩ 1
    (by decide) (by decide) (by decide)

/-- Witness for the amended C1 at `exDB1`: Alice's and Bob's rows are
adjacent distinct 5-keys of the Open division, so Bob's rank is exactly
Alice's rank + 1 (1 and 2). -/
theorem rank_is_dense_over_five_stage_key_witness :
    (rankKeyP ⟨20, "Open", 2, "Bob", 2, 2, 2, 3, 2⟩ =
        rankKeyP ⟨20, "Open", 1, "Alice", 1, 2, 2, 3, 2⟩ →
      (⟨20, "Open", 2, "Bob", 2, 2, 2, 3, 2⟩ : PodiumRow).rank =
        (⟨20, "Open", 1, "Alice", 1, 2, 2, 3, 2⟩ : PodiumRow).rank) ∧
    (rankKeyP ⟨20, "Open", 1, "Alice", 1, 2, 2, 3, 2⟩ <
        rankKeyP ⟨20, "Open", 2, "Bob", 2, 2, 2, 3, 2⟩ →
      (∀ t ∈ ranked exDB1 10, t.division_id =
          (⟨20, "Open", 1, "Alice", 1, 2, 2, 3, 2⟩ : PodiumRow).division_id →
        ¬(rankKeyP ⟨20, "Open", 1, "Alice", 1, 2, 2, 3, 2⟩ < rankKeyP t ∧
          rankKeyP t < rankKeyP ⟨20, "Open", 2, "Bob", 2, 2, 2, 3, 2⟩)) →
      (⟨20, "Open", 2, "Bob", 2, 2, 2, 3, 2⟩ : PodiumRow).rank =
        (⟨20, "Open", 1, "Alice", 1, 2, 2, 3, 2⟩ : PodiumRow).rank + 1) :=
  rank_is_dense_over_five_stage_key exDB1 10
    ⟨20, "Open", 1, "Alice", 1, 2, 2, 3, 2⟩
    ⟨20, "Open", 2, "Bob", 2, 2, 2, 3, 2⟩
    (by decide) (by decide) rfl

end ClimbComp
